import Mathlib

/-!
Verification of the frame codec (`src/packet.rs`) and connection
coordination (`src/main.rs`) of a small WebSocket server.

Shallow embedding conventions:
* Rust bytes (`u8`) are `Nat`; bit operations on header bytes are written
  with `/` and `%` (for values below 256 these agree with the masked
  bitwise operations in the source).
* A byte source (`impl Read` backed by a slice) is a `List Nat`; every
  reading function returns the unconsumed remainder of the list.
* Fallible Rust code returns `Res`: `.ok` / `.err` mirror `Result`,
  `.panic` marks the panicking control paths in the source
  (`unreachable`-style and `todo`-style macros, slice index and
  `split_at` contract violations).
* The reassembly loop in `read` is modelled with explicit fuel; fuel
  `s.length + 1` can never be exhausted because each iteration consumes
  at least two bytes of the stream.
-/

namespace WS

/-- Wire opcodes, from `enum Opcode` in `src/packet.rs`. -/
inductive Opcode where
  | Continuation
  | Text
  | Binary
  | Close
  | Ping
  | Pong
deriving DecidableEq

/-- `impl From<Opcode> for u8` in `src/packet.rs`. -/
def Opcode.toU8 : Opcode → Nat
  | .Continuation => 0
  | .Text => 1
  | .Binary => 2
  | .Close => 8
  | .Ping => 9
  | .Pong => 10

/-- `impl From<u8> for Opcode` in `src/packet.rs`; the catch-all arm of the
source match is an `unreachable`-style panic, modelled as `none`. -/
def Opcode.fromU8 (v : Nat) : Option Opcode :=
  if v = 0 then some .Continuation
  else if v = 1 then some .Text
  else if v = 2 then some .Binary
  else if v = 8 then some .Close
  else if v = 9 then some .Ping
  else if v = 10 then some .Pong
  else none

/-- The only `std::io::ErrorKind` reachable when the byte source is a
slice: `read_exact` past the end of the input. -/
inductive ErrorKind where
  | UnexpectedEof
deriving DecidableEq

/-- `enum Error` in `src/packet.rs` (`IOErr` embeds the source's `IO`
variant). -/
inductive Error where
  | IOErr : ErrorKind → Error
  | Int
  | Slice
  | ReservedBits
  | Length
  | Opcode
  | Utf8
deriving DecidableEq

/-- Result of running a piece of Rust code: a value, an `Err`, or a
panic (from an `unreachable`-style or `todo`-style macro, or a slice
operation outside its contract). -/
inductive Res (α : Type) where
  | ok : α → Res α
  | err : Error → Res α
  | panic : Res α
deriving DecidableEq

/-- Sequencing of fallible Rust computations. -/
def Res.bind {α β : Type} : Res α → (α → Res β) → Res β
  | .ok a, f => f a
  | .err e, _ => .err e
  | .panic, _ => .panic

/-- Whether a `Res` is a typed `Err` value. -/
def Res.isErr {α : Type} : Res α → Bool
  | .err _ => true
  | _ => false

/-- `struct Metadata` in `src/packet.rs`. -/
structure Metadata where
  fin : Bool
  opcode : Opcode
  masked : Bool
  len : Nat
deriving DecidableEq

/-- `enum Packet` in `src/packet.rs`: a Rust `String` is its list of
UTF-8 bytes, a `u16` status code is a `Nat` below 65536. -/
inductive Packet where
  | Text : List Nat → Packet
  | Close : Nat → Option (List Nat) → Packet
deriving DecidableEq

/-- A 4-byte masking key, `[u8; 4]` in the source. -/
structure Mask4 where
  m0 : Nat
  m1 : Nat
  m2 : Nat
  m3 : Nat
deriving DecidableEq

/-- `mask[i % 4]`. -/
def Mask4.get (m : Mask4) (i : Nat) : Nat :=
  match i % 4 with
  | 0 => m.m0
  | 1 => m.m1
  | 2 => m.m2
  | _ => m.m3

/-- XOR the bytes of a list with the cycling mask, starting at index `i`:
the in-place loop `payload[i] ^= mask[i % 4]` of the source. -/
def applyMaskFrom (m : Mask4) : Nat → List Nat → List Nat
  | _, [] => []
  | i, b :: rest => (b ^^^ m.get i) :: applyMaskFrom m (i + 1) rest

/-- XOR a whole payload with the cycling 4-byte mask. -/
def applyMask (m : Mask4) (p : List Nat) : List Nat :=
  applyMaskFrom m 0 p

/-- Whether a byte is a UTF-8 continuation byte (`0x80..=0xBF`). -/
def utf8Cont (b : Nat) : Bool :=
  128 ≤ b && b ≤ 191

/-- UTF-8 validity of a byte sequence per RFC 3629, the check performed
by `String::from_utf8` in the source. -/
def Utf8Valid : List Nat → Bool
  | [] => true
  | b :: rest =>
    if b ≤ 0x7F then Utf8Valid rest
    else if 0xC2 ≤ b && b ≤ 0xDF then
      match rest with
      | c1 :: rest1 => utf8Cont c1 && Utf8Valid rest1
      | [] => false
    else if b = 0xE0 then
      match rest with
      | c1 :: c2 :: rest2 =>
        (0xA0 ≤ c1 && c1 ≤ 0xBF) && utf8Cont c2 && Utf8Valid rest2
      | _ => false
    else if (0xE1 ≤ b && b ≤ 0xEC) || b = 0xEE || b = 0xEF then
      match rest with
      | c1 :: c2 :: rest2 => utf8Cont c1 && utf8Cont c2 && Utf8Valid rest2
      | _ => false
    else if b = 0xED then
      match rest with
      | c1 :: c2 :: rest2 =>
        (0x80 ≤ c1 && c1 ≤ 0x9F) && utf8Cont c2 && Utf8Valid rest2
      | _ => false
    else if b = 0xF0 then
      match rest with
      | c1 :: c2 :: c3 :: rest3 =>
        (0x90 ≤ c1 && c1 ≤ 0xBF) && utf8Cont c2 && utf8Cont c3 && Utf8Valid rest3
      | _ => false
    else if 0xF1 ≤ b && b ≤ 0xF3 then
      match rest with
      | c1 :: c2 :: c3 :: rest3 =>
        utf8Cont c1 && utf8Cont c2 && utf8Cont c3 && Utf8Valid rest3
      | _ => false
    else if b = 0xF4 then
      match rest with
      | c1 :: c2 :: c3 :: rest3 =>
        (0x80 ≤ c1 && c1 ≤ 0x8F) && utf8Cont c2 && utf8Cont c3 && Utf8Valid rest3
      | _ => false
    else false

/-- Big-endian byte representation on `k` bytes, as produced by
`to_be_bytes` (the value is taken modulo `256 ^ k`). -/
def beBytes : Nat → Nat → List Nat
  | 0, _ => []
  | k + 1, n => beBytes k (n / 256) ++ [n % 256]

/-- Big-endian value of a byte list, as computed by `from_be_bytes`. -/
def beVal (l : List Nat) : Nat :=
  l.foldl (fun acc b => acc * 256 + b) 0

/-- `serialize` in `src/packet.rs`.  `fin` is always set; the masked
branch for payloads of 126 bytes or more is a `todo`-style panic in the
source; the unmasked branch pushes `len as u8`, i.e. the length modulo
256, with no extended-length encoding. -/
def serialize (opcode : Opcode) (mask : Option Mask4) (payload : List Nat) :
    Res (List Nat) :=
  let len := payload.length
  let b0 := 128 + opcode.toU8
  match mask with
  | some m =>
    if len < 126 then
      .ok ([b0, 128 + len] ++ [m.m0, m.m1, m.m2, m.m3] ++ applyMask m payload)
    else
      .panic
  | none => .ok ([b0, len % 256] ++ payload)

/-- `read_metadata` in `src/packet.rs`: header bytes, reserved-bit
check, opcode conversion (which panics on reserved wire values), mask
bit, and the three length tiers with the 64-bit top-bit check. -/
def read_metadata : List Nat → Res (Metadata × List Nat)
  | b0 :: b1 :: rest =>
    if b0 / 16 % 8 != 0 then .err .ReservedBits
    else
      match Opcode.fromU8 (b0 % 16) with
      | none => .panic
      | some op =>
        let fin := b0 / 128 % 2 == 1
        let masked := b1 / 128 % 2 == 1
        let len := b1 % 128
        if len == 126 then
          match rest with
          | c0 :: c1 :: rest2 => .ok (⟨fin, op, masked, beVal [c0, c1]⟩, rest2)
          | _ => .err (.IOErr .UnexpectedEof)
        else if len == 127 then
          match rest with
          | c0 :: c1 :: c2 :: c3 :: c4 :: c5 :: c6 :: c7 :: rest2 =>
            let n := beVal [c0, c1, c2, c3, c4, c5, c6, c7]
            if 0x7FFFFFFFFFFFFFFF < n then .err .Length
            else .ok (⟨fin, op, masked, n⟩, rest2)
          | _ => .err (.IOErr .UnexpectedEof)
        else .ok (⟨fin, op, masked, len⟩, rest)
  | _ => .err (.IOErr .UnexpectedEof)

/-- `read_payload` in `src/packet.rs`: read the 4-byte mask key when the
frame is masked, read exactly `len` payload bytes, unmask in place.
(The `u64` to `usize` conversion of the source is infallible here.) -/
def read_payload (md : Metadata) (s : List Nat) : Res (List Nat × List Nat) :=
  if md.masked then
    match s with
    | m0 :: m1 :: m2 :: m3 :: rest =>
      if md.len ≤ rest.length then
        .ok (applyMask ⟨m0, m1, m2, m3⟩ (rest.take md.len), rest.drop md.len)
      else .err (.IOErr .UnexpectedEof)
    | _ => .err (.IOErr .UnexpectedEof)
  else
    if md.len ≤ s.length then .ok (s.take md.len, s.drop md.len)
    else .err (.IOErr .UnexpectedEof)

/-- The continuation-frame loop of `read` in `src/packet.rs`, with
explicit fuel.  Each iteration reads one frame, insists on opcode
`Continuation`, appends its payload, and stops at a `fin` frame,
returning the last frame's metadata, the accumulated payload, and the
rest of the stream.  Fuel exhaustion is unreachable for the fuel used by
`read` because every iteration consumes at least two bytes. -/
def readLoop : Nat → List Nat → List Nat → Res (Metadata × List Nat × List Nat)
  | 0, _, _ => .panic
  | fuel + 1, payload, s =>
    match read_metadata s with
    | .err e => .err e
    | .panic => .panic
    | .ok (md, s1) =>
      if md.opcode != .Continuation then .err .Opcode
      else
        match read_payload md s1 with
        | .err e => .err e
        | .panic => .panic
        | .ok (chunk, s2) =>
          if md.fin then .ok (md, payload ++ chunk, s2)
          else readLoop fuel (payload ++ chunk) s2

/-- `read` in `src/packet.rs`: one logical message.  The final match
interprets the accumulated payload by the first frame's opcode; the
`Close` arm slices the payload to the last frame's length (`metadata`
has been reassigned by the loop) and `split_at(2)` panics when that
slice is shorter than 2 bytes; `Binary`, `Ping`, `Pong` are `todo`-style
panics and `Continuation` an `unreachable`-style panic in the source. -/
def read (s : List Nat) : Res (Packet × List Nat) :=
  match read_metadata s with
  | .err e => .err e
  | .panic => .panic
  | .ok (md0, s1) =>
    match read_payload md0 s1 with
    | .err e => .err e
    | .panic => .panic
    | .ok (p0, s2) =>
      match (if md0.fin then .ok (md0, p0, s2) else readLoop (s2.length + 1) p0 s2 :
          Res (Metadata × List Nat × List Nat)) with
      | .err e => .err e
      | .panic => .panic
      | .ok (mdL, payload, s3) =>
        match md0.opcode with
        | .Text => if Utf8Valid payload then .ok (.Text payload, s3) else .err .Utf8
        | .Binary => .panic
        | .Close =>
          if payload.length < mdL.len then .panic
          else if mdL.len < 2 then .panic
          else
            let sliced := payload.take mdL.len
            .ok (.Close (beVal (sliced.take 2))
                (if Utf8Valid (sliced.drop 2) && !(sliced.drop 2).isEmpty then
                  some (sliced.drop 2)
                else none), s3)
        | .Ping => .panic
        | .Pong => .panic
        | .Continuation => .panic

/-- The length field of a frame header as laid out on the wire (7-bit
direct value, or the 126 escape with a 16-bit big-endian extension, or
the 127 escape with a 64-bit big-endian extension), with the mask bit in
the leading byte.  Used to quantify over input frames in theorem
statements, mirroring the wire format that `read_metadata` parses. -/
def lenBytes (masked : Bool) (len : Nat) : List Nat :=
  let mb := if masked then 128 else 0
  if len < 126 then [mb + len]
  else if len < 65536 then (mb + 126) :: beBytes 2 len
  else (mb + 127) :: beBytes 8 len

/-- The wire bytes following the length field: the 4 raw mask bytes and
the masked payload for a masked frame, the raw payload otherwise. -/
def wirePayload (mask : Option Mask4) (p : List Nat) : List Nat :=
  match mask with
  | some m => [m.m0, m.m1, m.m2, m.m3] ++ applyMask m p
  | none => p

/-- Wire bytes of one physical frame carrying payload `p`: header byte
(fin bit, zero reserved bits, opcode), length field, mask key and masked
payload when a mask is used.  Input construction for theorems that
quantify over frames. -/
def mkFrame (fin : Bool) (op : Opcode) (mask : Option Mask4) (p : List Nat) :
    List Nat :=
  ((if fin then 128 else 0) + op.toU8) :: (lenBytes mask.isSome p.length ++ wirePayload mask p)

/-- Wire bytes of the continuation frames of a fragmented message: all
frames carry opcode `Continuation`, only the last has `fin` set. -/
def fragTail : List (List Nat) → List Nat
  | [] => []
  | [p] => mkFrame true .Continuation none p
  | p :: ps => mkFrame false .Continuation none p ++ fragTail ps

/-- Wire bytes of a whole fragmented message: the first frame carries
the message opcode with `fin` clear, the rest are continuation
frames. -/
def fragBytes (op : Opcode) : List (List Nat) → List Nat
  | [] => []
  | [p] => mkFrame true op none p
  | p :: ps => mkFrame false op none p ++ fragTail ps

/-- A connection handle (`Arc<TcpStream>` in `src/main.rs`): an identity
plus the peer IP address reported by `peer_addr`. -/
structure Handle where
  id : Nat
  ip : Nat
deriving DecidableEq

/-- `enum Comm` in `src/main.rs`. -/
inductive Comm where
  | Connect : Handle → Comm
  | Handshake : Handle → String → Comm
  | Close : Handle → Nat → Option (List Nat) → Comm
  | Echo : Handle → List Nat → Comm
deriving DecidableEq

/-- Observable socket effects of one Coordinator step: the HTTP 101
response write, a frame write (recording the `serialize` result that is
unwrapped at the write), a flush, and a bidirectional shutdown. -/
inductive Effect where
  | handshakeResp : Handle → String → Effect
  | write : Handle → Res (List Nat) → Effect
  | flush : Handle → Effect
  | shutdownBoth : Handle → Effect
deriving DecidableEq

/-- The Coordinator's `HashMap<IpAddr, Arc<TcpStream>>`, modelled as an
association list from peer IP to handle. -/
def Registry : Type := List (Nat × Handle)

instance : DecidableEq Registry := by
  unfold Registry
  infer_instance

/-- `HashMap::contains_key`. -/
def containsIp (r : Registry) (ip : Nat) : Bool :=
  r.any (fun e => e.1 == ip)

/-- `HashMap` lookup: the handle registered for `ip`, if any. -/
def lookupIp (r : Registry) (ip : Nat) : Option Handle :=
  (r.find? (fun e => e.1 == ip)).map (fun e => e.2)

/-- `HashMap::insert`: bind `ip` to `h`, replacing any previous
binding. -/
def insertIp (r : Registry) (ip : Nat) (h : Handle) : Registry :=
  (ip, h) :: r.filter (fun e => !(e.1 == ip))

/-- `HashMap::remove`. -/
def removeIp (r : Registry) (ip : Nat) : Registry :=
  r.filter (fun e => !(e.1 == ip))

/-- The registry maps each IP to at most one handle. -/
def NodupKeys (r : Registry) : Prop :=
  (r.map Prod.fst).Nodup

instance (r : Registry) : Decidable (NodupKeys r) := by
  unfold NodupKeys
  infer_instance

/-- One iteration of the Coordinator loop (`fn server` in
`src/main.rs`): process a single `Comm`, returning the updated registry
and the socket effects, in order.  `Connect` rejects a duplicate peer IP
by shutting the new stream down and leaving the registry unchanged;
`Close` writes the close frame (2-byte big-endian status code, optional
reason bytes), shuts the stream down and removes its IP. -/
def serverStep (clients : Registry) (comm : Comm) : Registry × List Effect :=
  match comm with
  | .Connect h =>
    if containsIp clients h.ip then (clients, [.shutdownBoth h])
    else (insertIp clients h.ip h, [])
  | .Handshake h accept => (clients, [.handshakeResp h accept, .flush h])
  | .Close h code reason =>
    let buffer := beBytes 2 code ++ reason.getD []
    (removeIp clients h.ip,
      [.write h (serialize .Close none buffer), .flush h, .shutdownBoth h])
  | .Echo h text => (clients, [.write h (serialize .Text none text), .flush h])

/-- Registry after processing a command, ignoring the effects. -/
def stepRegistry (clients : Registry) (comm : Comm) : Registry :=
  (serverStep clients comm).1

/-- The command a Worker sends for one decoded packet (`fn client` in
`src/main.rs`): `Echo` for a text message, `Close` for a close
message. -/
def commOf (h : Handle) : Packet → Comm
  | .Text t => .Echo h t
  | .Close code reason => .Close h code reason

/-- The packets decoded from a byte stream until the first decode
failure, with fuel (each successful `read` consumes at least two
bytes, so fuel `s.length + 1` is never exhausted). -/
def readSeqF : Nat → List Nat → List Packet
  | 0, _ => []
  | fuel + 1, s =>
    match read s with
    | .ok (p, rest) => p :: readSeqF fuel rest
    | _ => []

/-- The packets decoded from a byte stream until the first decode
failure. -/
def readSeq (s : List Nat) : List Packet :=
  readSeqF (s.length + 1) s

/-- The Worker read loop (`while let Ok(packet) = packet::read(..)` in
`src/main.rs`), with fuel: the commands sent to the Coordinator until
the first decode failure (an `Err` ends the loop; a decode panic kills
the Worker thread, after which no further command is sent either). -/
def clientLoopF (h : Handle) : Nat → List Nat → List Comm
  | 0, _ => []
  | fuel + 1, s =>
    match read s with
    | .ok (p, rest) => commOf h p :: clientLoopF h fuel rest
    | _ => []

/-- The commands the Worker read loop sends for a given byte stream. -/
def clientLoop (h : Handle) (s : List Nat) : List Comm :=
  clientLoopF h (s.length + 1) s

/-- Whether a command is a `Close` command. -/
def isCloseComm : Comm → Bool
  | .Close _ _ _ => true
  | _ => false

theorem Opcode.toU8_lt (op : Opcode) : op.toU8 < 16 := by
  cases op <;> decide

theorem Opcode.fromU8_toU8 (op : Opcode) : Opcode.fromU8 op.toU8 = some op := by
  cases op <;> decide

theorem applyMaskFrom_length (m : Mask4) (i : Nat) (p : List Nat) :
    (applyMaskFrom m i p).length = p.length := by
  induction p generalizing i with
  | nil => rfl
  | cons b rest ih => simp [applyMaskFrom, ih]

theorem applyMask_length (m : Mask4) (p : List Nat) :
    (applyMask m p).length = p.length :=
  applyMaskFrom_length m 0 p

theorem applyMaskFrom_applyMaskFrom (m : Mask4) (i : Nat) (p : List Nat) :
    applyMaskFrom m i (applyMaskFrom m i p) = p := by
  induction p generalizing i with
  | nil => rfl
  | cons b rest ih => simp [applyMaskFrom, ih, Nat.xor_cancel_right]

theorem applyMask_applyMask (m : Mask4) (p : List Nat) :
    applyMask m (applyMask m p) = p :=
  applyMaskFrom_applyMaskFrom m 0 p

theorem beVal_append (l : List Nat) (b : Nat) :
    beVal (l ++ [b]) = beVal l * 256 + b := by
  simp [beVal, List.foldl_append]

theorem beVal_beBytes (k n : Nat) (h : n < 256 ^ k) : beVal (beBytes k n) = n := by
  induction k generalizing n with
  | zero =>
    simp only [beBytes, beVal, List.foldl_nil]
    omega
  | succ k ih =>
    have h1 : n / 256 < 256 ^ k := by
      rw [Nat.div_lt_iff_lt_mul (by norm_num)]
      calc n < 256 ^ (k + 1) := h
        _ = 256 ^ k * 256 := by ring
    rw [beBytes, beVal_append, ih _ h1]
    omega

theorem beBytes_two (n : Nat) :
    beBytes 2 n = [n / 256 % 256, n % 256] := by
  rfl

theorem read_metadata_cons (b0 b1 : Nat) (rest : List Nat) (op : Opcode)
    (hrsv : b0 / 16 % 8 = 0) (hop : Opcode.fromU8 (b0 % 16) = some op)
    (hlen : b1 % 128 < 126) :
    read_metadata (b0 :: b1 :: rest) =
      .ok (⟨b0 / 128 % 2 == 1, op, b1 / 128 % 2 == 1, b1 % 128⟩, rest) := by
  have h126 : (b1 % 128 == 126) = false := by
    simp only [beq_eq_false_iff_ne, ne_eq]
    omega
  have h127 : (b1 % 128 == 127) = false := by
    simp only [beq_eq_false_iff_ne, ne_eq]
    omega
  simp [read_metadata, hrsv, hop, h126, h127]

theorem read_metadata_cons126 (b0 b1 c0 c1 : Nat) (rest : List Nat) (op : Opcode)
    (hrsv : b0 / 16 % 8 = 0) (hop : Opcode.fromU8 (b0 % 16) = some op)
    (hlen : b1 % 128 = 126) :
    read_metadata (b0 :: b1 :: c0 :: c1 :: rest) =
      .ok (⟨b0 / 128 % 2 == 1, op, b1 / 128 % 2 == 1, beVal [c0, c1]⟩, rest) := by
  simp [read_metadata, hrsv, hop, hlen]

theorem read_metadata_cons127 (b0 b1 c0 c1 c2 c3 c4 c5 c6 c7 : Nat)
    (rest : List Nat) (op : Opcode)
    (hrsv : b0 / 16 % 8 = 0) (hop : Opcode.fromU8 (b0 % 16) = some op)
    (hlen : b1 % 128 = 127)
    (hsz : beVal [c0, c1, c2, c3, c4, c5, c6, c7] ≤ 0x7FFFFFFFFFFFFFFF) :
    read_metadata (b0 :: b1 :: c0 :: c1 :: c2 :: c3 :: c4 :: c5 :: c6 :: c7 :: rest) =
      .ok (⟨b0 / 128 % 2 == 1, op, b1 / 128 % 2 == 1,
        beVal [c0, c1, c2, c3, c4, c5, c6, c7]⟩, rest) := by
  have hno : ¬(0x7FFFFFFFFFFFFFFF < beVal [c0, c1, c2, c3, c4, c5, c6, c7]) := by
    omega
  simp [read_metadata, hrsv, hop, hlen, hno]

theorem beBytes_eight (n : Nat) :
    beBytes 8 n =
      [n / 256 / 256 / 256 / 256 / 256 / 256 / 256 % 256,
       n / 256 / 256 / 256 / 256 / 256 / 256 % 256,
       n / 256 / 256 / 256 / 256 / 256 % 256,
       n / 256 / 256 / 256 / 256 % 256,
       n / 256 / 256 / 256 % 256,
       n / 256 / 256 % 256,
       n / 256 % 256,
       n % 256] := by
  rfl

theorem read_metadata_mkFrame (fin : Bool) (op : Opcode) (mask : Option Mask4)
    (p extra : List Nat) (h : p.length < 2 ^ 63) :
    read_metadata (mkFrame fin op mask p ++ extra) =
      .ok (⟨fin, op, mask.isSome, p.length⟩, wirePayload mask p ++ extra) := by
  have ht : op.toU8 < 16 := Opcode.toU8_lt op
  have hrsv : ((if fin then 128 else 0) + op.toU8) / 16 % 8 = 0 := by
    cases fin <;> simp <;> omega
  have hop : Opcode.fromU8 (((if fin then 128 else 0) + op.toU8) % 16) = some op := by
    have hm : ((if fin then 128 else 0) + op.toU8) % 16 = op.toU8 := by
      cases fin <;> simp <;> omega
    rw [hm, Opcode.fromU8_toU8]
  have hfin : ((((if fin then 128 else 0) + op.toU8) / 128 % 2) == 1) = fin := by
    cases fin <;> simp [beq_iff_eq, beq_eq_false_iff_ne] <;> omega
  rcases Nat.lt_or_ge p.length 126 with h126 | h126
  · have hl : lenBytes mask.isSome p.length =
        [(if mask.isSome then 128 else 0) + p.length] := by
      simp [lenBytes, h126]
    have hmasked : ((((if mask.isSome then 128 else 0) + p.length) / 128 % 2) == 1) =
        mask.isSome := by
      cases mask <;> simp [beq_iff_eq, beq_eq_false_iff_ne] <;> omega
    have hmod : ((if mask.isSome then 128 else 0) + p.length) % 128 = p.length := by
      cases mask <;> simp <;> omega
    have hshape : mkFrame fin op mask p ++ extra =
        ((if fin then 128 else 0) + op.toU8) ::
          (((if mask.isSome then 128 else 0) + p.length) ::
            (wirePayload mask p ++ extra)) := by
      simp [mkFrame, hl, List.cons_append, List.append_assoc]
    rw [hshape, read_metadata_cons _ _ _ op hrsv hop (by omega : _ % 128 < 126)]
    rw [hfin, hmasked, hmod]
  · rcases Nat.lt_or_ge p.length 65536 with h65 | h65
    · have hl : lenBytes mask.isSome p.length =
          ((if mask.isSome then 128 else 0) + 126) :: beBytes 2 p.length := by
        have hnot : ¬ p.length < 126 := by omega
        simp [lenBytes, hnot, h65]
      have hmasked : ((((if mask.isSome then 128 else 0) + 126) / 128 % 2) == 1) =
          mask.isSome := by
        cases mask <;> simp [beq_iff_eq, beq_eq_false_iff_ne]
      have hmod : ((if mask.isSome then 128 else 0) + 126) % 128 = 126 := by
        cases mask <;> simp
      have hshape : mkFrame fin op mask p ++ extra =
          ((if fin then 128 else 0) + op.toU8) ::
            (((if mask.isSome then 128 else 0) + 126) ::
              (p.length / 256 % 256 :: (p.length % 256 ::
                (wirePayload mask p ++ extra)))) := by
        simp [mkFrame, hl, beBytes_two, List.cons_append, List.append_assoc]
      rw [hshape, read_metadata_cons126 _ _ _ _ _ op hrsv hop hmod]
      rw [hfin, hmasked]
      rw [show [p.length / 256 % 256, p.length % 256] = beBytes 2 p.length from
        (beBytes_two p.length).symm]
      rw [beVal_beBytes 2 p.length (by norm_num; omega)]
    · have hl : lenBytes mask.isSome p.length =
          ((if mask.isSome then 128 else 0) + 127) :: beBytes 8 p.length := by
        have hnot : ¬ p.length < 126 := by omega
        have hnot2 : ¬ p.length < 65536 := by omega
        simp [lenBytes, hnot, hnot2]
      have hmasked : ((((if mask.isSome then 128 else 0) + 127) / 128 % 2) == 1) =
          mask.isSome := by
        cases mask <;> simp [beq_iff_eq, beq_eq_false_iff_ne]
      have hmod : ((if mask.isSome then 128 else 0) + 127) % 128 = 127 := by
        cases mask <;> simp
      have hval : beVal (beBytes 8 p.length) = p.length :=
        beVal_beBytes 8 p.length (by norm_num; omega)
      have hshape : mkFrame fin op mask p ++ extra =
          ((if fin then 128 else 0) + op.toU8) ::
            (((if mask.isSome then 128 else 0) + 127) ::
              (p.length / 256 / 256 / 256 / 256 / 256 / 256 / 256 % 256 ::
               (p.length / 256 / 256 / 256 / 256 / 256 / 256 % 256 ::
                (p.length / 256 / 256 / 256 / 256 / 256 % 256 ::
                 (p.length / 256 / 256 / 256 / 256 % 256 ::
                  (p.length / 256 / 256 / 256 % 256 ::
                   (p.length / 256 / 256 % 256 ::
                    (p.length / 256 % 256 ::
                     (p.length % 256 ::
                      (wirePayload mask p ++ extra)))))))))) := by
        simp [mkFrame, hl, beBytes_eight, List.cons_append, List.append_assoc]
      have hlist : [p.length / 256 / 256 / 256 / 256 / 256 / 256 / 256 % 256,
            p.length / 256 / 256 / 256 / 256 / 256 / 256 % 256,
            p.length / 256 / 256 / 256 / 256 / 256 % 256,
            p.length / 256 / 256 / 256 / 256 % 256,
            p.length / 256 / 256 / 256 % 256,
            p.length / 256 / 256 % 256,
            p.length / 256 % 256,
            p.length % 256] = beBytes 8 p.length := (beBytes_eight p.length).symm
      have hsz : beVal [p.length / 256 / 256 / 256 / 256 / 256 / 256 / 256 % 256,
            p.length / 256 / 256 / 256 / 256 / 256 / 256 % 256,
            p.length / 256 / 256 / 256 / 256 / 256 % 256,
            p.length / 256 / 256 / 256 / 256 % 256,
            p.length / 256 / 256 / 256 % 256,
            p.length / 256 / 256 % 256,
            p.length / 256 % 256,
            p.length % 256] ≤ 0x7FFFFFFFFFFFFFFF := by
        rw [hlist, hval]
        omega
      rw [hshape, read_metadata_cons127 _ _ _ _ _ _ _ _ _ _ _ op hrsv hop hmod hsz]
      rw [hfin, hmasked, hlist, hval]

theorem read_payload_wire (fin : Bool) (op : Opcode) (mask : Option Mask4)
    (p extra : List Nat) :
    read_payload ⟨fin, op, mask.isSome, p.length⟩ (wirePayload mask p ++ extra) =
      .ok (p, extra) := by
  cases mask with
  | none =>
    have hle : p.length ≤ (p ++ extra).length := by
      simp
    simp [read_payload, wirePayload, hle, List.take_left, List.drop_left]
  | some m =>
    have hlen : (applyMask m p).length = p.length := applyMask_length m p
    have hle : p.length ≤ (applyMask m p ++ extra).length := by
      simp [hlen]
    have htake : (applyMask m p ++ extra).take p.length = applyMask m p :=
      List.take_left' hlen
    have hdrop : (applyMask m p ++ extra).drop p.length = extra :=
      List.drop_left' hlen
    have hshape : wirePayload (some m) p ++ extra =
        m.m0 :: m.m1 :: m.m2 :: m.m3 :: (applyMask m p ++ extra) := by
      simp [wirePayload]
    have hmask : (⟨m.m0, m.m1, m.m2, m.m3⟩ : Mask4) = m := rfl
    rw [hshape]
    simp only [read_payload, Option.isSome_some, if_true, hle, htake, hdrop, hmask,
      applyMask_applyMask]

theorem read_mkFrame_text (mask : Option Mask4) (p : List Nat)
    (h : p.length < 2 ^ 63) :
    read (mkFrame true .Text mask p) =
      if Utf8Valid p then .ok (.Text p, []) else .err .Utf8 := by
  have hmeta := read_metadata_mkFrame true .Text mask p [] h
  have hpay := read_payload_wire true .Text mask p []
  simp only [List.append_nil] at hmeta hpay
  simp only [read, hmeta, hpay]
  simp

theorem read_mkFrame_notImpl (op : Opcode) (mask : Option Mask4) (p : List Nat)
    (h : p.length < 2 ^ 63) (hop : op = .Binary ∨ op = .Ping ∨ op = .Pong) :
    read (mkFrame true op mask p) = .panic := by
  have hmeta := read_metadata_mkFrame true op mask p [] h
  have hpay := read_payload_wire true op mask p []
  simp only [List.append_nil] at hmeta hpay
  rcases hop with hop | hop | hop <;> subst hop <;> simp only [read, hmeta, hpay] <;>
    simp

theorem read_mkFrame_close (mask : Option Mask4) (p : List Nat)
    (h2 : 2 ≤ p.length) (h : p.length < 2 ^ 63) :
    read (mkFrame true .Close mask p) =
      .ok (.Close (beVal (p.take 2))
        (if Utf8Valid (p.drop 2) && !(p.drop 2).isEmpty then some (p.drop 2)
         else none), []) := by
  have hmeta := read_metadata_mkFrame true .Close mask p [] h
  have hpay := read_payload_wire true .Close mask p []
  simp only [List.append_nil] at hmeta hpay
  have h1 : ¬ (p.length < p.length) := Nat.lt_irrefl _
  have hno : ¬ (p.length < 2) := by omega
  simp only [read, hmeta, hpay]
  simp [h1, hno, List.take_length]

theorem read_mkFrame_close_short (mask : Option Mask4) (p : List Nat)
    (hlt : p.length < 2) :
    read (mkFrame true .Close mask p) = .panic := by
  have h : p.length < 2 ^ 63 := by omega
  have hmeta := read_metadata_mkFrame true .Close mask p [] h
  have hpay := read_payload_wire true .Close mask p []
  simp only [List.append_nil] at hmeta hpay
  have h1 : ¬ (p.length < p.length) := Nat.lt_irrefl _
  simp only [read, hmeta, hpay]
  simp [h1, hlt]

theorem lenBytes_length_pos (m : Bool) (len : Nat) : 1 ≤ (lenBytes m len).length := by
  simp only [lenBytes]
  split
  · simp
  · split <;> simp

theorem mkFrame_length_ge_two (fin : Bool) (op : Opcode) (mask : Option Mask4)
    (p : List Nat) : 2 ≤ (mkFrame fin op mask p).length := by
  have := lenBytes_length_pos mask.isSome p.length
  simp only [mkFrame, List.length_cons, List.length_append]
  omega

theorem fragTail_length (ps : List (List Nat)) : ps.length ≤ (fragTail ps).length := by
  induction ps with
  | nil => simp [fragTail]
  | cons p ps ih =>
    cases ps with
    | nil =>
      have := mkFrame_length_ge_two true .Continuation none p
      simp only [fragTail, List.length_cons, List.length_nil]
      omega
    | cons q qs =>
      have := mkFrame_length_ge_two false .Continuation none p
      simp only [fragTail, List.length_cons, List.length_append] at ih ⊢
      omega

theorem readLoop_fragTail (ps : List (List Nat)) (acc : List Nat) (fuel : Nat)
    (hne : ps ≠ []) (hfuel : ps.length ≤ fuel)
    (hlen : ∀ p ∈ ps, p.length < 2 ^ 63) :
    ∃ md : Metadata, readLoop fuel acc (fragTail ps) = .ok (md, acc ++ ps.flatten, []) := by
  induction ps generalizing acc fuel with
  | nil => exact absurd rfl hne
  | cons p ps ih =>
    have hp : p.length < 2 ^ 63 := hlen p (List.mem_cons_self p ps)
    cases fuel with
    | zero => simp at hfuel
    | succ f =>
      cases ps with
      | nil =>
        have hmeta := read_metadata_mkFrame true .Continuation none p [] hp
        have hpay := read_payload_wire true .Continuation none p []
        simp only [List.append_nil, wirePayload, Option.isSome_none] at hmeta hpay
        refine ⟨⟨true, .Continuation, false, p.length⟩, ?_⟩
        simp [fragTail, readLoop, hmeta, hpay]
      | cons q qs =>
        have hmeta := read_metadata_mkFrame false .Continuation none p
          (fragTail (q :: qs)) hp
        have hpay := read_payload_wire false .Continuation none p (fragTail (q :: qs))
        simp only [wirePayload, Option.isSome_none] at hmeta hpay
        obtain ⟨md, hloop⟩ := ih (acc ++ p) f (by simp)
          (by simpa using hfuel)
          (fun r hr => hlen r (List.mem_cons_of_mem p hr))
        refine ⟨md, ?_⟩
        simp [fragTail, readLoop, hmeta, hpay, hloop, List.append_assoc]

theorem find?_filter_of_imp {α : Type} (l : List α) (p q : α → Bool)
    (h : ∀ a, p a = true → q a = true) :
    (l.filter q).find? p = l.find? p := by
  induction l with
  | nil => rfl
  | cons a l ih =>
    by_cases hp : p a
    · have hq := h a hp
      simp [List.filter_cons, hq, List.find?_cons, hp]
    · by_cases hq : q a <;>
        simp [List.filter_cons, hq, List.find?_cons, hp, ih]

theorem lookupIp_insert_ne (r : Registry) (ip ip' : Nat) (h : Handle)
    (hne : ip ≠ ip') :
    lookupIp (insertIp r ip' h) ip = lookupIp r ip := by
  unfold lookupIp insertIp
  have hhd : (((ip', h) : Nat × Handle).1 == ip) = false := by
    simp
    omega
  rw [List.find?_cons, hhd]
  rw [find?_filter_of_imp]
  intro a ha
  simp at ha ⊢
  omega

theorem lookupIp_eq_none_of_not_contains (r : Registry) (ip : Nat)
    (hc : containsIp r ip = false) : lookupIp r ip = none := by
  unfold containsIp at hc
  unfold lookupIp
  rw [List.find?_eq_none.2]
  · rfl
  intro x hx
  rw [List.any_eq_false] at hc
  simpa using hc x hx

theorem containsIp_of_lookup (r : Registry) (ip : Nat) (h0 : Handle)
    (hl : lookupIp r ip = some h0) : containsIp r ip = true := by
  by_cases hc : containsIp r ip = true
  · exact hc
  · rw [lookupIp_eq_none_of_not_contains r ip (by simpa using hc)] at hl
    exact Option.noConfusion hl

theorem stepRegistry_preserves (clients : Registry) (comm : Comm) (ip : Nat)
    (h0 : Handle) (hnc : isCloseComm comm = false)
    (hl : lookupIp clients ip = some h0) :
    lookupIp (stepRegistry clients comm) ip = some h0 := by
  cases comm with
  | Connect h =>
    by_cases hc : containsIp clients h.ip
    · simpa [stepRegistry, serverStep, hc] using hl
    · have hne : ip ≠ h.ip := by
        intro he
        subst he
        rw [lookupIp_eq_none_of_not_contains _ _ (by simpa using hc)] at hl
        exact Option.noConfusion hl
      simp only [stepRegistry, serverStep, hc, Bool.false_eq_true, if_false]
      rw [lookupIp_insert_ne _ _ _ _ hne]
      exact hl
  | Handshake h a => simpa [stepRegistry, serverStep] using hl
  | Close h c r => simp [isCloseComm] at hnc
  | Echo h t => simpa [stepRegistry, serverStep] using hl

theorem foldl_stepRegistry_preserves (comms : List Comm) (clients : Registry)
    (ip : Nat) (h0 : Handle)
    (hnc : ∀ c ∈ comms, isCloseComm c = false)
    (hl : lookupIp clients ip = some h0) :
    lookupIp (comms.foldl stepRegistry clients) ip = some h0 := by
  induction comms generalizing clients with
  | nil => simpa using hl
  | cons c cs ih =>
    simp only [List.foldl_cons]
    exact ih _ (fun d hd => hnc d (List.mem_cons_of_mem c hd))
      (stepRegistry_preserves _ _ _ _ (hnc c (List.mem_cons_self c cs)) hl)

theorem clientLoopF_eq_map (h : Handle) (fuel : Nat) (s : List Nat) :
    clientLoopF h fuel s = (readSeqF fuel s).map (commOf h) := by
  induction fuel generalizing s with
  | zero => rfl
  | succ f ih =>
    simp only [clientLoopF, readSeqF]
    cases hr : read s with
    | ok pr =>
      obtain ⟨p, rest⟩ := pr
      simp [ih]
    | err e => simp
    | panic => simp

theorem nodupKeys_filter (r : Registry) (q : Nat × Handle → Bool)
    (hn : NodupKeys r) : NodupKeys (r.filter q) := by
  unfold NodupKeys at hn ⊢
  exact List.Nodup.sublist (List.Sublist.map Prod.fst (List.filter_sublist r)) hn

theorem notMem_keys_filter_ne (r : Registry) (ip : Nat) :
    ip ∉ (r.filter (fun e => !(e.1 == ip))).map Prod.fst := by
  intro hmem
  simp only [List.mem_map] at hmem
  obtain ⟨e, he, hfst⟩ := hmem
  rw [List.mem_filter] at he
  simp [hfst] at he

theorem nodupKeys_insertIp (r : Registry) (ip : Nat) (h : Handle)
    (hn : NodupKeys r) : NodupKeys (insertIp r ip h) := by
  unfold NodupKeys insertIp
  rw [List.map_cons, List.nodup_cons]
  exact ⟨notMem_keys_filter_ne r ip, nodupKeys_filter r _ hn⟩

theorem nodupKeys_serverStep (clients : Registry) (comm : Comm)
    (hn : NodupKeys clients) : NodupKeys (serverStep clients comm).1 := by
  cases comm with
  | Connect h =>
    by_cases hc : containsIp clients h.ip
    · simpa [serverStep, hc] using hn
    · simp only [serverStep, hc, Bool.false_eq_true, if_false]
      exact nodupKeys_insertIp clients h.ip h hn
  | Handshake h a => simpa [serverStep] using hn
  | Close h c r => exact nodupKeys_filter clients _ hn
  | Echo h t => simpa [serverStep] using hn

/-- C1: for every valid UTF-8 byte string `s` of length below 126,
decoding the bytes produced by `serialize` for an unmasked Text frame
yields `Text s` (and consumes the whole buffer):
`read (serialize Text none s) = ok (Text s)`. -/
theorem c1_text_roundtrip (s : List Nat) (hv : Utf8Valid s = true)
    (hlen : s.length < 126) :
    (serialize .Text none s).bind read = .ok (.Text s, []) := by
  have hmod : s.length % 256 = s.length := Nat.mod_eq_of_lt (by omega)
  have hser : serialize .Text none s = .ok (mkFrame true .Text none s) := by
    simp [serialize, mkFrame, lenBytes, wirePayload, hlen, hmod]
  rw [hser]
  simp only [Res.bind]
  rw [read_mkFrame_text none s (by omega)]
  simp [hv]

theorem c1_text_roundtrip_witness :
    Utf8Valid [72, 101, 108, 108, 111, 33] = true ∧
    ([72, 101, 108, 108, 111, 33] : List Nat).length < 126 ∧
    (serialize .Text none [72, 101, 108, 108, 111, 33]).bind read =
      .ok (.Text [72, 101, 108, 108, 111, 33], []) :=
  ⟨by decide, by decide,
    c1_text_roundtrip [72, 101, 108, 108, 111, 33] (by decide) (by decide)⟩

/-- C2 counterexample: the claim says an empty Close payload decodes
successfully and a 1-byte Close payload fails with a malformed-frame
error; in the code both panic in the `split_at(2)` slice operation
(frame `[136, 0]` is an unmasked Close frame with empty payload,
`[136, 1, 0]` one with a 1-byte payload), and neither is a typed
`Err`. -/
theorem c2_close_short_counterexample :
    read [136, 0] = .panic ∧ (read [136, 0]).isErr = false ∧
    read [136, 1, 0] = .panic ∧ (read [136, 1, 0]).isErr = false :=
  ⟨by decide, by decide, by decide, by decide⟩

/-- C2 (amended): decoding a Close frame whose payload is shorter than
2 bytes (empty or 1-byte) panics in the `split_at` slice operation
rather than succeeding or returning a typed error; for payloads of 2 or
more bytes the first 2 bytes are parsed as a big-endian status code and
the remaining bytes as a UTF-8 reason, with an empty (or invalid-UTF-8)
reason normalized to `none`. -/
theorem c2_close_payload (mask : Option Mask4) (p : List Nat)
    (h : p.length < 2 ^ 63) :
    (p.length < 2 → read (mkFrame true .Close mask p) = .panic) ∧
    (2 ≤ p.length → read (mkFrame true .Close mask p) =
      .ok (.Close (beVal (p.take 2))
        (if Utf8Valid (p.drop 2) && !(p.drop 2).isEmpty then some (p.drop 2)
         else none), [])) :=
  ⟨fun hlt => read_mkFrame_close_short mask p hlt,
    fun h2 => read_mkFrame_close mask p h2 h⟩

theorem c2_close_payload_witness :
    (([3, 232, 65] : List Nat).length < 2 ^ 63) ∧
    (2 ≤ ([3, 232, 65] : List Nat).length) ∧
    read (mkFrame true .Close none [3, 232, 65]) =
      .ok (.Close 1000 (some [65]), []) := by
  refine ⟨by decide, by decide, ?_⟩
  have h := (c2_close_payload none [3, 232, 65] (by decide)).2 (by decide)
  rw [h]
  decide

/-- C3 counterexample: the claim says decoding a frame with opcode
Binary, Ping or Pong returns a typed not-implemented `Err`; the code
panics in a `todo`-style macro instead (`[130, 0]` is an unmasked
Binary frame with empty payload). -/
theorem c3_notimpl_counterexample :
    read [130, 0] = .panic ∧ (read [130, 0]).isErr = false ∧
    read [137, 0] = .panic ∧ read [138, 0] = .panic :=
  ⟨by decide, by decide, by decide, by decide⟩

/-- C3 (amended): decoding a completed message whose first frame
carries opcode Binary, Ping or Pong panics in a `todo`-style macro; it
never returns a typed `Err` and never silently misinterprets the
payload. -/
theorem c3_notimpl_panics (op : Opcode) (mask : Option Mask4) (p : List Nat)
    (h : p.length < 2 ^ 63) (hop : op = .Binary ∨ op = .Ping ∨ op = .Pong) :
    read (mkFrame true op mask p) = .panic ∧
    (read (mkFrame true op mask p)).isErr = false := by
  have hp := read_mkFrame_notImpl op mask p h hop
  exact ⟨hp, by rw [hp]; rfl⟩

theorem c3_notimpl_panics_witness :
    (([65] : List Nat).length < 2 ^ 63) ∧
    (Opcode.Binary = .Binary ∨ Opcode.Binary = .Ping ∨ Opcode.Binary = .Pong) ∧
    read (mkFrame true .Binary none [65]) = .panic :=
  ⟨by decide, Or.inl rfl,
    (c3_notimpl_panics .Binary none [65] (by decide) (Or.inl rfl)).1⟩

/-- C4 counterexample: a Close message fragmented as payloads `[3]` and
`[233, 65, 66]` decodes to `Close 1001 (some "A")` because the `Close`
arm slices the accumulated payload to the *last* fragment's length,
while the identical content in a single frame decodes to
`Close 1001 (some "AB")` — so fragmented and unfragmented Close
messages do not decode identically. -/
theorem c4_close_frag_counterexample :
    fragBytes .Close [[3], [233, 65, 66]] = [8, 1, 3, 128, 3, 233, 65, 66] ∧
    mkFrame true .Close none [3, 233, 65, 66] = [136, 4, 3, 233, 65, 66] ∧
    read (fragBytes .Close [[3], [233, 65, 66]]) =
      .ok (.Close 1001 (some [65]), []) ∧
    read (mkFrame true .Close none [3, 233, 65, 66]) =
      .ok (.Close 1001 (some [65, 66]), []) ∧
    read (fragBytes .Close [[3], [233, 65, 66]]) ≠
      read (mkFrame true .Close none [3, 233, 65, 66]) :=
  ⟨by decide, by decide, by decide, by decide, by decide⟩

/-- C4 (amended): decode accumulates the payloads of all fragments and
interprets them by the first frame's opcode, and a Text message split
across any number of fragments decodes to the same result as the same
content in a single fin frame; for a fragmented Close message the
accumulated payload is first truncated to the final fragment's length,
so fragmented Close messages may decode differently. -/
theorem c4_text_fragmentation (ps : List (List Nat)) (hne : ps ≠ [])
    (hlen : ∀ p ∈ ps, p.length < 2 ^ 63) (hj : ps.flatten.length < 2 ^ 63) :
    read (fragBytes .Text ps) = read (mkFrame true .Text none ps.flatten) := by
  cases ps with
  | nil => exact absurd rfl hne
  | cons p ps =>
    cases ps with
    | nil => simp [fragBytes]
    | cons q qs =>
      have hp : p.length < 2 ^ 63 := hlen p (List.mem_cons_self _ _)
      have hmeta := read_metadata_mkFrame false .Text none p (fragTail (q :: qs)) hp
      have hpay := read_payload_wire false .Text none p (fragTail (q :: qs))
      simp only [wirePayload, Option.isSome_none] at hmeta hpay
      have hfuel : (q :: qs).length ≤ (fragTail (q :: qs)).length + 1 := by
        have := fragTail_length (q :: qs)
        omega
      obtain ⟨md, hloop⟩ := readLoop_fragTail (q :: qs) p
        ((fragTail (q :: qs)).length + 1) (by simp) hfuel
        (fun r hr => hlen r (List.mem_cons_of_mem p hr))
      rw [read_mkFrame_text none (p :: q :: qs).flatten hj]
      have hfrag : fragBytes .Text (p :: q :: qs) =
          mkFrame false .Text none p ++ fragTail (q :: qs) := rfl
      rw [hfrag]
      simp [read, hmeta, hpay, hloop, List.flatten_cons]

theorem c4_text_fragmentation_witness :
    (([[72], [101]] : List (List Nat)) ≠ []) ∧
    read (fragBytes .Text [[72], [101]]) =
      read (mkFrame true .Text none ([[72], [101]] : List (List Nat)).flatten) :=
  ⟨by decide,
    c4_text_fragmentation [[72], [101]] (by decide) (by decide) (by decide)⟩

/-- C5: unmasking is an involution (XOR-ing a payload twice with the
same cycling 4-byte mask restores the original bytes), and decoding a
masked frame yields the same result as decoding its unmasked equivalent
(same header except the mask bit, payload with the mask already
removed). -/
theorem c5_masking (m : Mask4) (p : List Nat) (op : Opcode)
    (hp : p.length < 2 ^ 63) :
    applyMask m (applyMask m p) = p ∧
    read (mkFrame true op (some m) p) = read (mkFrame true op none p) := by
  refine ⟨applyMask_applyMask m p, ?_⟩
  have hmetaM := read_metadata_mkFrame true op (some m) p [] hp
  have hpayM := read_payload_wire true op (some m) p []
  have hmetaN := read_metadata_mkFrame true op none p [] hp
  have hpayN := read_payload_wire true op none p []
  simp only [List.append_nil] at hmetaM hpayM hmetaN hpayN
  simp only [read, hmetaM, hpayM, hmetaN, hpayN]
  cases op <;> simp

theorem c5_masking_witness :
    (([5, 6, 7] : List Nat).length < 2 ^ 63) ∧
    applyMask ⟨1, 2, 3, 4⟩ (applyMask ⟨1, 2, 3, 4⟩ [5, 6, 7]) = [5, 6, 7] ∧
    read (mkFrame true .Text (some ⟨1, 2, 3, 4⟩) [5, 6, 7]) =
      read (mkFrame true .Text none [5, 6, 7]) :=
  ⟨by decide, (c5_masking ⟨1, 2, 3, 4⟩ [5, 6, 7] .Text (by decide)).1,
    (c5_masking ⟨1, 2, 3, 4⟩ [5, 6, 7] .Text (by decide)).2⟩

set_option maxRecDepth 4000 in
/-- C6 counterexample: the claim says unmasked frames get a correct
length encoding at all payload lengths; for a 126-byte unmasked payload
`serialize` emits the single length byte 126 with no 16-bit extended
length (the claimed correct header would be `129 :: lenBytes false 126`,
i.e. `[129, 126, 0, 126]`). -/
theorem c6_unmasked_length_counterexample :
    serialize .Text none (List.replicate 126 0) =
      .ok ([129, 126] ++ List.replicate 126 0) ∧
    serialize .Text none (List.replicate 126 0) ≠
      .ok (129 :: (lenBytes false 126 ++ List.replicate 126 0)) :=
  ⟨by decide, by decide⟩

/-- C6 (amended): for payloads shorter than 126 bytes `serialize` emits
the payload length directly in the 7-bit length field with the mask bit
set exactly when a mask key is supplied, and `read_metadata` parses the
produced header back to the same opcode, mask flag and length; for
masked payloads of 126 bytes or more `serialize` panics in a
`todo`-style macro; for unmasked payloads it always emits the length
modulo 256 as the single length byte, with no extended-length
encoding. -/
theorem c6_serialize_length_encoding (op : Opcode) (m : Mask4) (p : List Nat) :
    (p.length < 126 →
      serialize op (some m) p = .ok (mkFrame true op (some m) p) ∧
      serialize op none p = .ok (mkFrame true op none p) ∧
      read_metadata (mkFrame true op (some m) p) =
        .ok (⟨true, op, true, p.length⟩, wirePayload (some m) p) ∧
      read_metadata (mkFrame true op none p) =
        .ok (⟨true, op, false, p.length⟩, p)) ∧
    (126 ≤ p.length → serialize op (some m) p = .panic) ∧
    serialize op none p = .ok ((128 + op.toU8) :: (p.length % 256 :: p)) := by
  refine ⟨fun h126 => ?_, fun h126 => ?_, ?_⟩
  · have hmod : p.length % 256 = p.length := Nat.mod_eq_of_lt (by omega)
    refine ⟨?_, ?_, ?_, ?_⟩
    · simp [serialize, mkFrame, lenBytes, wirePayload, h126]
    · simp [serialize, mkFrame, lenBytes, wirePayload, h126, hmod]
    · simpa using read_metadata_mkFrame true op (some m) p [] (by omega)
    · simpa [wirePayload] using read_metadata_mkFrame true op none p [] (by omega)
  · simp [serialize, Nat.not_lt.2 h126]
  · simp [serialize]

theorem c6_serialize_length_encoding_witness :
    serialize .Text (some ⟨1, 2, 3, 4⟩) [7] = .ok [129, 129, 1, 2, 3, 4, 6] ∧
    serialize .Text (some ⟨1, 2, 3, 4⟩) (List.replicate 126 0) = .panic := by
  constructor
  · have h := ((c6_serialize_length_encoding .Text ⟨1, 2, 3, 4⟩ [7]).1 (by decide)).1
    rw [h]
    decide
  · exact (c6_serialize_length_encoding .Text ⟨1, 2, 3, 4⟩
      (List.replicate 126 0)).2.1 (by simp)

/-- C7 counterexample: the claim says a frame whose opcode field holds a
reserved wire value is rejected with a typed error; on frame
`[131, 0]` (fin set, reserved opcode 3, zero reserved bits) the code
panics in the `unreachable`-style arm of the `u8` to `Opcode`
conversion, and the result is not a typed `Err`. -/
theorem c7_reserved_opcode_counterexample :
    read [131, 0] = .panic ∧ (read [131, 0]).isErr = false :=
  ⟨by decide, by decide⟩

/-- C7 (amended): for every frame whose header has zero reserved bits
and whose 4-bit opcode field holds a reserved wire value (3 through 7
or 11 through 15), decode panics in the `unreachable`-style arm of the
opcode conversion — for either fin bit, before consuming any further
input — instead of returning a typed error. -/
theorem c7_reserved_opcode_panics (v b1 : Nat) (rest : List Nat) (f : Bool)
    (hv3 : 3 ≤ v) (hv15 : v ≤ 15) (hv8 : v ≠ 8) (hv9 : v ≠ 9) (hv10 : v ≠ 10) :
    read (((if f then 128 else 0) + v) :: b1 :: rest) = .panic := by
  have hrsv : ((if f then 128 else 0) + v) / 16 % 8 = 0 := by
    cases f <;> simp <;> omega
  have hmod : ((if f then 128 else 0) + v) % 16 = v := by
    cases f <;> simp <;> omega
  have hnone : Opcode.fromU8 v = none := by
    unfold Opcode.fromU8
    split_ifs <;> first | rfl | omega
  have hmeta : read_metadata (((if f then 128 else 0) + v) :: b1 :: rest) =
      .panic := by
    simp [read_metadata, hrsv, hmod, hnone]
  simp [read, hmeta]

theorem c7_reserved_opcode_panics_witness :
    (3 ≤ 3 ∧ 3 ≤ 15 ∧ 3 ≠ 8 ∧ 3 ≠ 9 ∧ 3 ≠ 10) ∧ read [131, 0] = .panic := by
  refine ⟨by decide, ?_⟩
  have h := c7_reserved_opcode_panics 3 0 [] true (by decide) (by decide)
    (by decide) (by decide) (by decide)
  simpa using h

/-- C8: the Registry holds at most one entry per peer IP: a `Connect`
for an already-registered IP shuts the new handle down in both
directions and leaves the Registry unchanged (the new handle never
appears in it), otherwise the handle is inserted under its peer IP; and
every Coordinator step preserves key-uniqueness of the Registry. -/
theorem c8_registry_connect (clients : Registry) (h : Handle) (comm : Comm) :
    (containsIp clients h.ip = true →
      serverStep clients (.Connect h) = (clients, [.shutdownBoth h])) ∧
    (containsIp clients h.ip = false →
      serverStep clients (.Connect h) = (insertIp clients h.ip h, [])) ∧
    (NodupKeys clients → NodupKeys (serverStep clients comm).1) :=
  ⟨fun hc => by simp [serverStep, hc],
    fun hc => by simp [serverStep, hc],
    fun hn => nodupKeys_serverStep clients comm hn⟩

theorem c8_registry_connect_witness :
    containsIp ([(7, ⟨0, 7⟩)] : Registry) 7 = true ∧
    serverStep ([(7, ⟨0, 7⟩)] : Registry) (.Connect ⟨1, 7⟩) =
      (([(7, ⟨0, 7⟩)] : Registry), [.shutdownBoth ⟨1, 7⟩]) ∧
    containsIp ([(7, ⟨0, 7⟩)] : Registry) 9 = false ∧
    serverStep ([(7, ⟨0, 7⟩)] : Registry) (.Connect ⟨2, 9⟩) =
      (insertIp ([(7, ⟨0, 7⟩)] : Registry) 9 ⟨2, 9⟩, []) ∧
    (NodupKeys ([(7, ⟨0, 7⟩)] : Registry) →
      NodupKeys (serverStep ([(7, ⟨0, 7⟩)] : Registry) (.Connect ⟨1, 7⟩)).1) :=
  ⟨by decide,
    (c8_registry_connect ([(7, ⟨0, 7⟩)] : Registry) ⟨1, 7⟩ (.Connect ⟨1, 7⟩)).1
      (by decide),
    by decide,
    (c8_registry_connect ([(7, ⟨0, 7⟩)] : Registry) ⟨2, 9⟩ (.Connect ⟨2, 9⟩)).2.1
      (by decide),
    (c8_registry_connect ([(7, ⟨0, 7⟩)] : Registry) ⟨1, 7⟩ (.Connect ⟨1, 7⟩)).2.2⟩

/-- C9: only a `Close` command removes a Registry entry (every other
command preserves every existing binding); the Worker read loop sends
exactly one command per decoded packet — a `Close` command only for a
decoded Close message — and sends nothing once decode fails, so after a
decode error the peer's entry stays in the Registry through any
sequence of non-Close commands, and a later `Connect` from the same IP
is rejected as a duplicate with the Registry unchanged. -/
theorem c9_close_only_removal (clients : Registry) (comm : Comm) (ip : Nat)
    (h0 hc : Handle) (s : List Nat) (e : Error) (comms : List Comm) :
    (isCloseComm comm = false → lookupIp clients ip = some h0 →
      lookupIp (stepRegistry clients comm) ip = some h0) ∧
    clientLoop hc s = (readSeq s).map (commOf hc) ∧
    (read s = .err e → clientLoop hc s = []) ∧
    (lookupIp clients ip = some h0 → (∀ c ∈ comms, isCloseComm c = false) →
      lookupIp (comms.foldl stepRegistry clients) ip = some h0 ∧
      (hc.ip = ip → serverStep (comms.foldl stepRegistry clients) (.Connect hc) =
        (comms.foldl stepRegistry clients, [.shutdownBoth hc]))) := by
  refine ⟨fun hnc hl => stepRegistry_preserves clients comm ip h0 hnc hl,
    clientLoopF_eq_map hc (s.length + 1) s, fun hre => ?_, fun hl hnc => ?_⟩
  · simp [clientLoop, clientLoopF, hre]
  · have hfold := foldl_stepRegistry_preserves comms clients ip h0 hnc hl
    refine ⟨hfold, fun hip => ?_⟩
    subst hip
    have hcont := containsIp_of_lookup _ _ _ hfold
    simp [serverStep, hcont]

theorem c9_close_only_removal_witness :
    (isCloseComm (.Echo ⟨0, 7⟩ []) = false) ∧
    lookupIp ([(7, ⟨0, 7⟩)] : Registry) 7 = some ⟨0, 7⟩ ∧
    lookupIp (stepRegistry ([(7, ⟨0, 7⟩)] : Registry) (.Echo ⟨0, 7⟩ [])) 7 =
      some ⟨0, 7⟩ ∧
    clientLoop ⟨0, 7⟩ [] = (readSeq []).map (commOf ⟨0, 7⟩) ∧
    (read [] = .err (.IOErr .UnexpectedEof)) ∧
    clientLoop ⟨0, 7⟩ [] = [] ∧
    lookupIp (([.Echo ⟨0, 7⟩ []] : List Comm).foldl stepRegistry
      ([(7, ⟨0, 7⟩)] : Registry)) 7 = some ⟨0, 7⟩ ∧
    serverStep (([.Echo ⟨0, 7⟩ []] : List Comm).foldl stepRegistry
        ([(7, ⟨0, 7⟩)] : Registry)) (.Connect ⟨1, 7⟩) =
      (([.Echo ⟨0, 7⟩ []] : List Comm).foldl stepRegistry
        ([(7, ⟨0, 7⟩)] : Registry), [.shutdownBoth ⟨1, 7⟩]) := by
  have h := c9_close_only_removal ([(7, ⟨0, 7⟩)] : Registry) (.Echo ⟨0, 7⟩ []) 7
    ⟨0, 7⟩ ⟨1, 7⟩ [] (.IOErr .UnexpectedEof) [.Echo ⟨0, 7⟩ []]
  have h4 := h.2.2.2 (by decide) (by decide)
  exact ⟨by decide, by decide, h.1 (by decide) (by decide), h.2.1,
    by decide, h.2.2.1 (by decide), h4.1, h4.2 (by decide)⟩

/-- C10: a Close frame whose payload has length at least 2 and whose
bytes after the status code are not valid UTF-8 decodes successfully to
`Close status_code none` — the invalid reason is silently dropped —
whereas a Text payload that is not valid UTF-8 makes decode fail with
the `Utf8` error. -/
theorem c10_close_invalid_utf8 (mask : Option Mask4) (p : List Nat)
    (h2 : 2 ≤ p.length) (h : p.length < 2 ^ 63)
    (hbad : Utf8Valid (p.drop 2) = false) :
    read (mkFrame true .Close mask p) =
      .ok (.Close (beVal (p.take 2)) none, []) ∧
    (Utf8Valid p = false → read (mkFrame true .Text mask p) = .err .Utf8) := by
  constructor
  · rw [read_mkFrame_close mask p h2 h]
    simp [hbad]
  · intro hbadp
    rw [read_mkFrame_text mask p h]
    simp [hbadp]

theorem c10_close_invalid_utf8_witness :
    (2 ≤ ([3, 233, 255] : List Nat).length) ∧
    Utf8Valid (([3, 233, 255] : List Nat).drop 2) = false ∧
    Utf8Valid [3, 233, 255] = false ∧
    read (mkFrame true .Close none [3, 233, 255]) =
      .ok (.Close 1001 none, []) ∧
    read (mkFrame true .Text none [3, 233, 255]) = .err .Utf8 := by
  have h := c10_close_invalid_utf8 none [3, 233, 255] (by decide) (by decide)
    (by decide)
  refine ⟨by decide, by decide, by decide, ?_, h.2 (by decide)⟩
  rw [h.1]
  decide

end WS
